import Mathlib

/-!
Verification development for the tectonic-on-arXiv corpus evaluation
pipeline (`report.py`, `report_ci.py`, `prepare_dataset.py`).

The Python sources are shallowly embedded: every stateful step is made an
explicit function of its inputs, filesystem effects are represented by the
lists of paths they create, and external capabilities (hashing, content
sniffing, the compiler subprocess) are parameters of the embedded
functions.
-/

namespace TectonicReport

/-! ## Path model (`os.path`)

`safe_extract` in `report_ci.py` / `prepare_dataset.py` decides
path-traversal with `os.path.abspath`, `os.path.join` and
`os.path.commonprefix`.  Paths are strings; the workspace root is an
absolute path.
-/

/-- Components of a path string, split on the slash separator. -/
def splitPath (s : String) : List String :=
  (s.data.splitOn '/').map (fun cs => String.mk cs)

/-- Normalisation of the component list of an absolute path, as performed
by `os.path.abspath` (via `normpath`): empty and `.` components are
dropped, `..` removes the preceding component (a no-op at the root). -/
def normParts (parts : List String) : List String :=
  parts.foldl
    (fun acc c =>
      if c = "" ∨ c = "." then acc
      else if c = ".." then acc.dropLast
      else acc ++ [c])
    []

/-- The absolute normalised form of an absolute path string
(`os.path.abspath` applied to an already absolute path). -/
def normalize (p : String) : String :=
  String.mk ('/' :: List.intercalate ['/'] ((normParts (splitPath p)).map String.data))

/-- Python `os.path.join(path, name)` for the cases arising here: an
absolute `name` replaces `path`, otherwise the two parts are joined with a
slash. -/
def joinPath (path name : String) : String :=
  if name.data.head? = some '/' then name else path ++ "/" ++ name

/-- The containment check of `safe_extract`
(`os.path.commonprefix([abs_directory, abs_target]) == abs_directory`):
the common prefix of the two strings equals `abs_directory` exactly when
`abs_directory` is a character-wise prefix of `abs_target`. -/
def is_within_directory (directory target : String) : Bool :=
  (normalize directory).data.isPrefixOf (normalize target).data

/-- The exception message raised by `safe_extract`. -/
def pathTraversalMsg : String := "Attempted Path Traversal in Tar File"

/-- `safe_extract` from `report_ci.py` / `prepare_dataset.py`: every member
of the tar archive is checked with `is_within_directory` before anything is
extracted; on a violation the exception is raised and `tar.extractall` is
never reached, otherwise every member is extracted under `path`. -/
def safe_extract (path : String) (members : List String) : Except String (List String) :=
  if members.all (fun m => is_within_directory path (joinPath path m)) then
    Except.ok members
  else
    Except.error pathTraversalMsg

/-- Absolute paths of the files extraction actually creates: none when
`safe_extract` raises (the member check loop precedes `tar.extractall`),
otherwise one file per member at its joined, resolved location. -/
def safe_extract_created (path : String) (members : List String) : List String :=
  match safe_extract path members with
  | Except.ok ms => ms.map (fun m => normalize (joinPath path m))
  | Except.error _ => []

/-- A member resolves outside the workspace root when the root's resolved
components are not a component-wise prefix of the member's resolved joined
path.  This is the property the specification demands extraction reject. -/
def resolvesOutside (root m : String) : Bool :=
  ! (normParts (splitPath root)).isPrefixOf (normParts (splitPath (joinPath root m)))

example : normalize "/tmp/ws/../ws2/evil" = "/tmp/ws2/evil" := by decide
example : safe_extract "/tmp/ws" ["../ws2/evil"] = Except.ok ["../ws2/evil"] := by rfl
example : resolvesOutside "/tmp/ws" "../ws2/evil" = true := by decide
example : safe_extract "/tmp/ws" ["../../x"] = Except.error pathTraversalMsg := by rfl
example : safe_extract "/tmp/ws" ["a/b.tex", "c.tex"] = Except.ok ["a/b.tex", "c.tex"] := by rfl

/-! ## TestEnv (`report_ci.py`)

`TestEnv.__init__` creates the temporary workspace, decompresses the gzip
stream into `tmpdir / sample.stem`, and — when the submission is a tar
archive — runs `safe_extract` into the workspace and unlinks the
intermediate file.  `__enter__` returns the workspace, `__exit__` runs
`shutil.rmtree`.
-/

/-- The body of `TestEnv.__init__` after `mkdtemp` and gunzip: the contents
of the workspace are `[stem]` for a flat submission, and for a tar
submission the safe-extracted member names (the intermediate `stem` file is
unlinked afterwards). -/
def testEnv_init (root stem : String) (tarMembers : List String) (is_tar : Bool) :
    Except String (List String) :=
  if is_tar then
    safe_extract root tarMembers
  else
    Except.ok [stem]

/-- Outcome of the code run under `with TestEnv(...) as d:`. -/
inductive BodyOutcome (α : Type) where
  | normal (a : α)
  | raised (e : String)
deriving DecidableEq

/-- Execution of `with TestEnv(...) as d: body`, paired with whether the
temporary directory was removed.  When `__init__` itself raises — the gzip
or tar extraction step fails — the context is never entered and `__exit__`
(`shutil.rmtree`) never runs; once `__enter__` has been reached, `__exit__`
runs on every exit of the body, normal or exceptional. -/
def withTestEnv {α : Type} (init : Except String (List String))
    (body : List String → BodyOutcome α) : BodyOutcome α × Bool :=
  match init with
  | Except.error e => (BodyOutcome.raised e, false)
  | Except.ok ws => (body ws, true)

/-! ## do_work (`report_ci.py`)

The worker body: builds the workspace with
`TestEnv(sample, is_tar=(maindoc != sample.stem))`, runs the compiler
subprocess under a 600 second timeout, catches `subprocess.TimeoutExpired`
and substitutes the sentinel status `-99999`, and assembles the report
record.  The subprocess outcome, elapsed wall time, and the
`capture_files` result are external effects and enter as parameters.
-/

/-- One JSON line of the report, as assembled by `do_work`. -/
structure ReportRecord where
  sample : String
  statuscode : Int
  seconds : Nat
  results : List (String × String)
deriving DecidableEq

/-- The `try/except subprocess.TimeoutExpired` around `subprocess.run`: the
exit code of the finished subprocess, or the sentinel `-99999` when the
timeout expired. -/
def run_status (run : Except Unit Int) : Int :=
  match run with
  | Except.ok rc => rc
  | Except.error _ => -99999

/-- `do_work(sample, maindoc, tectonic)`: workspace construction with
`is_tar = (maindoc != sample.stem)`, then the record with `run_status` of
the subprocess outcome.  The returned pair carries the workspace contents
so theorems can speak about them. -/
def do_work (stem maindoc root : String) (tarMembers : List String)
    (run : Except Unit Int) (elapsed : Nat) (results : List (String × String)) :
    Except String (ReportRecord × List String) :=
  match testEnv_init root stem tarMembers (maindoc != stem) with
  | Except.error e => Except.error e
  | Except.ok ws =>
      Except.ok
        ({ sample := stem, statuscode := run_status run, seconds := elapsed,
           results := results }, ws)

/-! ## get_maindoc (`report.py`)

Entry-document resolution over the files directly under the workspace
root.  A file is TeX-like when its filename suffix is `.tex` or its
content-sniffed MIME type is `text/x-tex`; the sniffed type is external
input and is a field of the embedded file.
-/

/-- A directory entry as `get_maindoc` sees it: name, content-sniffed MIME
type, raw content bytes. -/
structure WFile where
  name : String
  mime : String
  content : List Char
deriving DecidableEq

/-- Python `Path.suffix`: the final `.`-separated component including the
dot; empty when there is no dot or the only dot is leading. -/
def pathSuffix (name : String) : String :=
  match (name.data.splitOn '.').reverse with
  | [] => ""
  | [_] => ""
  | last :: rest => if rest = [[]] then "" else String.mk ('.' :: last)

/-- The filter of `get_maindoc`:
`x.suffix == '.tex' or magic.detect_from_filename(x).mime_type == 'text/x-tex'`. -/
def isTexLike (f : WFile) : Bool :=
  pathSuffix f.name == ".tex" || f.mime == "text/x-tex"

/-- Python byte-string containment (`needle in haystack`): the needle is a
contiguous run of the haystack. -/
def containsSub (p : List Char) : List Char → Bool
  | [] => p.isPrefixOf []
  | c :: rest => p.isPrefixOf (c :: rest) || containsSub p rest

/-- The literal marker scanned for: `b"\\documentclass"`. -/
def marker : List Char := "\\documentclass".data

/-- `get_maindoc(p)`: with fewer than two TeX-like files return the first
(raising `IndexError` when there are none); otherwise return the first
TeX-like file whose raw bytes contain the marker, and fail the
`assert False, "multiple entry points?"` when none does. -/
def get_maindoc (files : List WFile) : Except String WFile :=
  let texfiles := files.filter isTexLike
  if texfiles.length < 2 then
    match texfiles with
    | [] => Except.error "IndexError"
    | t :: _ => Except.ok t
  else
    match texfiles.find? (fun x => containsSub marker x.content) with
    | some x => Except.ok x
    | none => Except.error "multiple entry points?"

example : pathSuffix "a.tex" = ".tex" := by decide
example : pathSuffix "archive.tar" = ".tar" := by decide
example : pathSuffix "noext" = "" := by decide
example : pathSuffix ".tex" = "" := by decide
example :
    get_maindoc [⟨"a.tex", "", "x".data⟩] = Except.ok ⟨"a.tex", "", "x".data⟩ := by rfl
example : get_maindoc [⟨"a.bin", "", "x".data⟩] = Except.error "IndexError" := by rfl
example :
    get_maindoc [⟨"a.tex", "", "x".data⟩, ⟨"b.tex", "", "\\documentclass y".data⟩]
      = Except.ok ⟨"b.tex", "", "\\documentclass y".data⟩ := by rfl

/-! ## capture_files (`report_ci.py`)

The content-addressed capture store.  `sha256sum` is an external pure
function of the file bytes and enters as the parameter `hash` (already
truncated to the first 16 hex characters, as the call site does with
`[:16]`).  The object store directory `objects/` is modelled by the list
of file names present in it; `shutil.copy` appends the target name.
-/

/-- A directory entry as `capture_files` sees it: name, whether it is a
regular file, raw content bytes. -/
structure DFile where
  name : String
  isFile : Bool
  content : List Char
deriving DecidableEq

/-- `ext = f.suffix or ".bin"`. -/
def fileExt (f : DFile) : String :=
  if pathSuffix f.name = "" then ".bin" else pathSuffix f.name

/-- One iteration of the `capture_files` loop (the `as_set=False` branch):
skip non-files and excluded digests; the copy into `objects/` happens only
when the target name is absent, and the filename-to-object mapping
collects every captured entry. -/
def capture_step (hash : List Char → String) (excluded : Option (List String))
    (acc : List (String × String) × List String) (f : DFile) :
    List (String × String) × List String :=
  if f.isFile = false then acc
  else
    let digest := hash f.content
    if (match excluded with
        | some ex => ex.contains digest
        | none => false) then acc
    else
      let target := digest ++ fileExt f
      let store2 := if acc.2.contains target then acc.2 else acc.2 ++ [target]
      (acc.1 ++ [(f.name, digest ++ fileExt f)], store2)

/-- `capture_files(d, excluded=excluded)` (the `as_set=False` branch):
fold of `capture_step` over the directory entries.  Returns the
filename-to-object mapping together with the updated object store. -/
def capture_files (hash : List Char → String) (files : List DFile)
    (excluded : Option (List String)) (store : List String) :
    List (String × String) × List String :=
  files.foldl (capture_step hash excluded) ([], store)

/-- `capture_files(d, as_set=True)`: only the digest set of the regular
files is recorded, nothing is copied. -/
def capture_files_asSet (hash : List Char → String) (files : List DFile) : List String :=
  (files.filter (fun f => f.isFile)).map (fun f => hash f.content)

/-! ## TAGS / IMPLIED_TAGS / get_tags (`report.py`) -/

/-- The static signature table, in source order. -/
def TAGS : List (String × String) := [
  ("no-font-for-pdf", "Cannot proceed without .vf or \"physical\" font for PDF output..."),
  ("latex-file-not-found", "LaTeX Error: File"),
  ("undefined-control-sequence", "! Undefined control sequence."),
  ("not-latex", "LaTeX Error: Missing \\begin\x7bdocument\x7d"),
  ("uses-inputenc", "Package inputenc Error: inputenc is not designed for xetex or luatex."),
  ("latex-error", "LaTeX Error"),
  ("bib-failed", "\\end\x7bthebibliography\x7d")]

/-- Python substring containment on strings (`v_ in v`). -/
def substrOf (p s : String) : Bool := containsSub p.data s.data

/-- `IMPLIED_TAGS[k]` over an arbitrary table: the keys whose signature is
contained in the signature of `k` and differ from `k` (the dictionary
lookup of `k`'s own signature is a `find?` on the table). -/
def impliedOf (table : List (String × String)) (k : String) : List String :=
  match table.find? (fun kv => kv.1 == k) with
  | some kv => (table.filter (fun kv2 => substrOf kv2.2 kv.2 && kv2.1 != k)).map Prod.fst
  | none => []

/-- Python `sorted` on a list of strings. -/
def sortStrings (l : List String) : List String :=
  List.insertionSort (fun a b : String => a ≤ b) l

/-- `get_tags(p)` over an arbitrary signature table; the log file is
`none` when `p.exists()` is false, otherwise `some` of the full text.  The
matched keys minus the union of the implied sets of all matched keys,
sorted. -/
def get_tags_table (table : List (String × String)) (log : Option String) : List String :=
  match log with
  | none => ["no-log-file"]
  | some data =>
    let res := (table.filter (fun kv => substrOf kv.2 data)).map Prod.fst
    let redundant := res.foldl (fun acc k => acc ++ impliedOf table k) []
    sortStrings (res.filter (fun t => ! redundant.contains t))

/-- `get_tags` with the static table of `report.py`. -/
def get_tags (log : Option String) : List String := get_tags_table TAGS log

example : get_tags none = ["no-log-file"] := by rfl
example : get_tags (some "LaTeX Error: File x not found") = ["latex-file-not-found"] := by rfl
example : get_tags (some "LaTeX Error elsewhere") = ["latex-error"] := by rfl
example : get_tags (some "nothing here") = [] := by rfl

/-! ## prepare / prepare_dataset (`prepare_dataset.py`) and the CI queue
(`report_ci.py`)

`prepare` opens the sample inside a `TestEnv` and resolves the entry
document with the `heuristics.get_maindoc`; that resolver and the
`EXCLUDED_SAMPLES` set live outside the embedded core, so entry
resolution enters as the parameter `maindocOf` and the exclusion list as
`excluded`.  `report_ci.report` loads the resulting map and pre-loads the
work queue with the samples whose stem is a key of the map.
-/

/-- One corpus file: stable identifier (`Path.stem`) and byte size. -/
structure Sample where
  stem : String
  size : Nat
deriving DecidableEq

/-- `prepare(sample)`: below 100 bytes the submission was withdrawn and
`None` is returned; excluded stems are skipped; otherwise the resolved
entry name. -/
def prepare (maindocOf : Sample → Option String) (excluded : List String)
    (s : Sample) : Option String :=
  if s.size < 100 then none
  else if excluded.contains s.stem then none
  else maindocOf s

/-- One iteration of the `prepare_dataset` loop: keep a truthy `prepare`
result keyed by the sample's stem. -/
def prepare_step (maindocOf : Sample → Option String) (excluded : List String)
    (out : List (String × String)) (s : Sample) : List (String × String) :=
  match prepare maindocOf excluded s with
  | some r => if r = "" then out else out ++ [(s.stem, r)]
  | none => out

/-- `prepare_dataset(corpus)`: fold `prepare` over the corpus, keeping the
truthy results keyed by stem. -/
def prepare_dataset (maindocOf : Sample → Option String) (excluded : List String)
    (corpus : List Sample) : List (String × String) :=
  corpus.foldl (prepare_step maindocOf excluded) []

/-- The queue pre-load loop of `report_ci.report`: every corpus sample
whose stem is a key of the entry-document map is put on the work queue, in
corpus order. -/
def ci_queue (sample_maindoc : List (String × String)) (corpus : List Sample) :
    List Sample :=
  corpus.filter (fun s => (sample_maindoc.map Prod.fst).contains s.stem)

/-- The report log produced by one run of `report_ci.report`: the metadata
line is written and flushed before the worker threads are started, and
afterwards each completing worker appends its record line under `outlock`;
`records` is the sequence of record lines in completion order. -/
def report_ci_log (metaLine : String) (records : List String) : List String :=
  metaLine :: records

example :
    prepare_dataset (fun _ => some "m.tex") [] [⟨"a", 150⟩, ⟨"b", 50⟩]
      = [("a", "m.tex")] := by rfl
example :
    ci_queue [("a", "m.tex")] [⟨"a", 150⟩, ⟨"b", 50⟩] = [⟨"a", 150⟩] := by decide

/-! ## Claim C1: path traversal rejection -/

/-- C1 counterexample: the tar member `../ws2/evil` resolves outside the
workspace root `/tmp/ws` — it lands in the sibling directory `/tmp/ws2` —
yet `safe_extract` accepts the archive, because the string-prefix test of
`os.path.commonprefix` sees `/tmp/ws` as a character-wise prefix of
`/tmp/ws2/evil`; the extraction creates `/tmp/ws2/evil`, a file outside
the workspace. -/
theorem safe_extract_sibling_escape :
    resolvesOutside "/tmp/ws" "../ws2/evil" = true
    ∧ safe_extract "/tmp/ws" ["../ws2/evil"] = Except.ok ["../ws2/evil"]
    ∧ safe_extract_created "/tmp/ws" ["../ws2/evil"] = ["/tmp/ws2/evil"] :=
  ⟨by decide, by rfl, by rfl⟩

/-- C1 (amended): `safe_extract` fails with the path-traversal exception
whenever some member's joined absolute path fails the character-wise
string-prefix containment check against the workspace root, and in that
case the member check loop precedes `tar.extractall`, so no file at all is
created; when every member passes the check, all members are extracted. -/
theorem safe_extract_checks_all_members (root : String) (members : List String) :
    ((∃ m ∈ members, is_within_directory root (joinPath root m) = false) →
      safe_extract root members = Except.error pathTraversalMsg
      ∧ safe_extract_created root members = [])
    ∧ ((∀ m ∈ members, is_within_directory root (joinPath root m) = true) →
      safe_extract root members = Except.ok members) := by
  constructor
  · rintro ⟨m, hm, hfalse⟩
    have hall : ¬ (members.all (fun x => is_within_directory root (joinPath root x)) = true) := by
      intro h
      have h2 := List.all_eq_true.mp h m hm
      rw [h2] at hfalse
      exact Bool.noConfusion hfalse
    refine ⟨?_, ?_⟩
    · simp [safe_extract, hall]
    · simp [safe_extract_created, safe_extract, hall]
  · intro h
    have hall : members.all (fun x => is_within_directory root (joinPath root x)) = true :=
      List.all_eq_true.mpr h
    simp [safe_extract, hall]

/-- C1 witness: a traversing member is rejected and creates nothing, a
well-behaved member is extracted. -/
theorem safe_extract_checks_all_members_witness :
    (safe_extract "/r" ["../../x"] = Except.error pathTraversalMsg
      ∧ safe_extract_created "/r" ["../../x"] = [])
    ∧ safe_extract "/r" ["a.tex"] = Except.ok ["a.tex"] :=
  ⟨(safe_extract_checks_all_members "/r" ["../../x"]).1 ⟨"../../x", by decide, by decide⟩,
   (safe_extract_checks_all_members "/r" ["a.tex"]).2 (by decide)⟩

/-! ## Claim C2: workspace cleanup -/

/-- C2 counterexample: when extraction inside `TestEnv.__init__` fails —
here a genuinely traversing tar member — the exception propagates before
`__enter__`, `__exit__` never runs, and the freshly created temporary
directory is not removed. -/
theorem testenv_leak_on_extraction_failure :
    (withTestEnv (α := Nat) (testEnv_init "/tmp/ws" "s" ["../../x"] true)
      (fun _ => BodyOutcome.normal 0)).2 = false := by rfl

/-- C2 (amended): once `TestEnv.__init__` has succeeded, the workspace is
recursively removed on every exit path of the managed body — normal
completion, exception, or timeout raised inside the body — and the body's
outcome is passed through; when `__init__` itself fails, the directory is
not removed. -/
theorem testenv_cleanup_after_enter {α : Type} (init : Except String (List String))
    (body : List String → BodyOutcome α) (ws : List String)
    (h : init = Except.ok ws) :
    (withTestEnv init body).2 = true ∧ (withTestEnv init body).1 = body ws := by
  subst h
  exact ⟨rfl, rfl⟩

/-- C2 witness: a flat (non-tar) submission enters the context and the
workspace is removed, both for a normal body and for a body that raises. -/
theorem testenv_cleanup_after_enter_witness :
    (withTestEnv (α := Nat) (testEnv_init "/t" "s" [] false)
      (fun _ => BodyOutcome.normal 0)).2 = true
    ∧ (withTestEnv (α := Nat) (testEnv_init "/t" "s" [] false)
      (fun _ => BodyOutcome.raised "subprocess.TimeoutExpired")).2 = true :=
  ⟨(testenv_cleanup_after_enter (testEnv_init "/t" "s" [] false)
      (fun _ => BodyOutcome.normal 0) ["s"] rfl).1,
   (testenv_cleanup_after_enter (testEnv_init "/t" "s" [] false)
      (fun _ => BodyOutcome.raised "subprocess.TimeoutExpired") ["s"] rfl).1⟩

/-! ## Claim C3: entry-document resolution -/

/-- `find?` returns the unique element satisfying the test. -/
theorem find_eq_some_of_unique {α : Type} (p : α → Bool) (x : α) :
    ∀ (l : List α), x ∈ l → p x = true → (∀ y ∈ l, p y = true → y = x) →
      l.find? p = some x := by
  intro l
  induction l with
  | nil => intro h; cases h
  | cons a t ih =>
    intro hmem hx huniq
    by_cases ha : p a = true
    · rw [List.find?_cons_of_pos _ ha]
      rw [huniq a (List.mem_cons_self a t) ha]
    · rw [List.find?_cons_of_neg _ ha]
      have hxt : x ∈ t := by
        rcases List.mem_cons.mp hmem with h | h
        · subst h; exact absurd hx ha
        · exact h
      exact ih hxt hx (fun y hy => huniq y (List.mem_cons_of_mem a hy))

/-- `find?` over a split list returns the head of the suffix when the whole
prefix fails the test. -/
theorem find_eq_first {α : Type} (p : α → Bool) (x : α) (l2 : List α) :
    ∀ (l1 : List α), (∀ y ∈ l1, p y = false) → p x = true →
      (l1 ++ x :: l2).find? p = some x := by
  intro l1
  induction l1 with
  | nil => intro _ hx; simp [List.find?_cons_of_pos _ hx]
  | cons a t ih =>
    intro hall hx
    have ha : ¬ p a = true := by simp [hall a (List.mem_cons_self a t)]
    rw [List.cons_append, List.find?_cons_of_neg _ ha]
    exact ih (fun y hy => hall y (List.mem_cons_of_mem a hy)) hx

/-- C3 counterexample: a directory with two TeX-like files, both containing
the literal `\documentclass` marker.  The claimed `AmbiguousEntryError` is
not raised: `get_maindoc` silently returns the first candidate. -/
theorem get_maindoc_two_markers_first :
    (([⟨"a.tex", "", "\\documentclass a".data⟩, ⟨"b.tex", "", "\\documentclass b".data⟩] :
        List WFile).filter isTexLike).length = 2
    ∧ containsSub marker "\\documentclass a".data = true
    ∧ containsSub marker "\\documentclass b".data = true
    ∧ get_maindoc [⟨"a.tex", "", "\\documentclass a".data⟩, ⟨"b.tex", "", "\\documentclass b".data⟩]
        = Except.ok ⟨"a.tex", "", "\\documentclass a".data⟩ :=
  ⟨by decide, by decide, by decide, by rfl⟩

/-- C3 (amended): with exactly one TeX-like candidate `get_maindoc` returns
it without reading any content; with zero candidates it fails (IndexError);
with at least two candidates it returns the unique candidate containing the
marker when there is one, fails fatally when no candidate contains the
marker, and — when more than one candidate contains the marker — silently
returns the first one in directory order. -/
theorem get_maindoc_characterization (files : List WFile) :
    (∀ f, files.filter isTexLike = [f] → get_maindoc files = Except.ok f)
    ∧ (files.filter isTexLike = [] → get_maindoc files = Except.error "IndexError")
    ∧ (∀ x, 2 ≤ (files.filter isTexLike).length → x ∈ files.filter isTexLike →
        containsSub marker x.content = true →
        (∀ y ∈ files.filter isTexLike, containsSub marker y.content = true → y = x) →
        get_maindoc files = Except.ok x)
    ∧ (2 ≤ (files.filter isTexLike).length →
        (∀ y ∈ files.filter isTexLike, containsSub marker y.content = false) →
        get_maindoc files = Except.error "multiple entry points?")
    ∧ (∀ x l1 l2, files.filter isTexLike = l1 ++ x :: l2 →
        2 ≤ (files.filter isTexLike).length →
        (∀ y ∈ l1, containsSub marker y.content = false) →
        containsSub marker x.content = true →
        get_maindoc files = Except.ok x) := by
  refine ⟨?_, ?_, ?_, ?_, ?_⟩
  · intro f h
    simp [get_maindoc, h]
  · intro h
    simp [get_maindoc, h]
  · intro x hlen hx hmx huniq
    have hnl : ¬ (files.filter isTexLike).length < 2 := by omega
    have hfind := find_eq_some_of_unique (fun y => containsSub marker y.content) x
      (files.filter isTexLike) hx hmx (fun y hy => huniq y hy)
    simp [get_maindoc, hnl, hfind]
  · intro hlen hnone
    have hnl : ¬ (files.filter isTexLike).length < 2 := by omega
    have hfind : (files.filter isTexLike).find? (fun y => containsSub marker y.content) = none :=
      List.find?_eq_none.mpr (fun y hy => by simp [hnone y hy])
    simp [get_maindoc, hnl, hfind]
  · intro x l1 l2 hsplit hlen hpre hx
    have hnl : ¬ (files.filter isTexLike).length < 2 := by omega
    have hfind : (files.filter isTexLike).find? (fun y => containsSub marker y.content) = some x := by
      rw [hsplit]
      exact find_eq_first _ x l2 l1 hpre hx
    simp [get_maindoc, hnl, hfind]

/-- C3 witness: a single-candidate directory resolves to that candidate,
and a two-candidate directory with a unique marked file resolves to the
marked one. -/
theorem get_maindoc_characterization_witness :
    get_maindoc [⟨"a.tex", "", "x".data⟩] = Except.ok ⟨"a.tex", "", "x".data⟩
    ∧ get_maindoc [⟨"c.tex", "", "x".data⟩, ⟨"d.tex", "", "\\documentclass d".data⟩]
        = Except.ok ⟨"d.tex", "", "\\documentclass d".data⟩ :=
  ⟨(get_maindoc_characterization [⟨"a.tex", "", "x".data⟩]).1
      ⟨"a.tex", "", "x".data⟩ (by decide),
   (get_maindoc_characterization
      [⟨"c.tex", "", "x".data⟩, ⟨"d.tex", "", "\\documentclass d".data⟩]).2.2.1
      ⟨"d.tex", "", "\\documentclass d".data⟩ (by decide) (by decide) (by decide) (by decide)⟩

/-! ## Claim C4: subprocess timeout becomes the sentinel status -/

/-- C4: when the compiler subprocess exceeds its wall-clock timeout, the
`except subprocess.TimeoutExpired` branch runs, the sentinel status
`-99999` replaces the exit code in the assembled record, and `do_work`
still returns the record normally — no timeout error escapes the worker. -/
theorem do_work_timeout_recorded (stem maindoc root : String)
    (tarMembers : List String) (elapsed : Nat) (results : List (String × String))
    (ws : List String)
    (hinit : testEnv_init root stem tarMembers (maindoc != stem) = Except.ok ws) :
    do_work stem maindoc root tarMembers (Except.error ()) elapsed results
      = Except.ok ({ sample := stem, statuscode := -99999,
                     seconds := elapsed, results := results }, ws) := by
  simp [do_work, hinit, run_status]

/-- C4 witness: a flat sample whose compilation times out is recorded with
status `-99999`. -/
theorem do_work_timeout_recorded_witness :
    do_work "s" "s" "/t" [] (Except.error ()) 600 [("s.log", "d.log")]
      = Except.ok ({ sample := "s", statuscode := -99999, seconds := 600,
                     results := [("s.log", "d.log")] }, ["s"]) :=
  do_work_timeout_recorded "s" "s" "/t" [] 600 [("s.log", "d.log")] ["s"] rfl

/-! ## Claim C5: content-addressed capture -/

/-- A name already present in the object store survives the whole capture
fold with its multiplicity unchanged: the copy is guarded by the
target-exists check, so nothing is ever re-added. -/
theorem capture_fold_count_of_mem (hash : List Char → String)
    (excluded : Option (List String)) (t : String) :
    ∀ (files : List DFile) (acc : List (String × String) × List String),
      t ∈ acc.2 →
      t ∈ (files.foldl (capture_step hash excluded) acc).2
      ∧ (files.foldl (capture_step hash excluded) acc).2.count t = acc.2.count t := by
  intro files
  induction files with
  | nil => intro acc ht; exact ⟨ht, rfl⟩
  | cons f fs ih =>
    intro acc ht
    rw [List.foldl_cons]
    have hstep : t ∈ (capture_step hash excluded acc f).2
        ∧ (capture_step hash excluded acc f).2.count t = acc.2.count t := by
      simp only [capture_step]
      split
      · exact ⟨ht, rfl⟩
      · split
        · exact ⟨ht, rfl⟩
        · split
          · exact ⟨ht, rfl⟩
          · rename_i hnc
            have hne : t ≠ hash f.content ++ fileExt f := by
              intro he
              exact hnc (by rw [← he]; exact List.elem_eq_true_of_mem ht)
            refine ⟨List.mem_append_left _ ht, ?_⟩
            rw [List.count_append]
            simp [List.count_cons, hne]
    rcases hstep with ⟨hm, hc⟩
    rcases ih (capture_step hash excluded acc f) hm with ⟨hm2, hc2⟩
    exact ⟨hm2, hc2.trans hc⟩

/-- When every regular file's digest is excluded, the capture fold is the
identity: nothing is captured and the store is untouched. -/
theorem capture_fold_all_excluded (hash : List Char → String) (ex : List String) :
    ∀ (files : List DFile) (acc : List (String × String) × List String),
      (∀ f ∈ files, f.isFile = true → ex.contains (hash f.content) = true) →
      files.foldl (capture_step hash (some ex)) acc = acc := by
  intro files
  induction files with
  | nil => intro acc _; rfl
  | cons f fs ih =>
    intro acc hall
    rw [List.foldl_cons]
    have hstep : capture_step hash (some ex) acc f = acc := by
      simp only [capture_step]
      split
      · rfl
      · rename_i h1
        have h1t : f.isFile = true := by
          cases h : f.isFile
          · exact absurd h h1
          · rfl
        rw [if_pos (hall f (List.mem_cons_self f fs) h1t)]
    rw [hstep]
    exact ih acc (fun g hg => hall g (List.mem_cons_of_mem f hg))

/-- C5 counterexample: the same content captured under two filenames with
different suffixes is stored twice — the extension comes from the
filename's own suffix, so the two copies land at two distinct target
paths. -/
theorem capture_files_same_content_two_objects :
    (⟨"a.pdf", true, "same".data⟩ : DFile).content
        = (⟨"b.txt", true, "same".data⟩ : DFile).content
    ∧ (capture_files (fun _ => "d0d0d0d0d0d0d0d0")
        [⟨"a.pdf", true, "same".data⟩, ⟨"b.txt", true, "same".data⟩] none []).2
      = ["d0d0d0d0d0d0d0d0.pdf", "d0d0d0d0d0d0d0d0.txt"] :=
  ⟨rfl, by rfl⟩

/-- C5 (amended): a file is copied only if its target path is absent, so a
target already in the store keeps multiplicity one no matter what is
captured later; capturing the same content twice under filenames with the
same suffix produces exactly one object-store file; and capture with the
baseline digest set excluded returns the empty mapping and leaves the
store untouched. -/
theorem capture_files_dedup_spec :
    (∀ (hash : List Char → String) files excluded store (t : String), t ∈ store →
      (capture_files hash files excluded store).2.count t = store.count t)
    ∧ (∀ (hash : List Char → String) (f1 f2 : DFile) (ex store : List String),
        f1.isFile = true → f2.isFile = true →
        f1.content = f2.content → fileExt f1 = fileExt f2 →
        ex.contains (hash f1.content) = false →
        (hash f1.content ++ fileExt f1) ∉ store →
        (capture_files hash [f1, f2] (some ex) store).2
            = store ++ [hash f1.content ++ fileExt f1]
        ∧ (capture_files hash [f1, f2] (some ex) store).2.count
            (hash f1.content ++ fileExt f1) = 1)
    ∧ (∀ (hash : List Char → String) files store,
        capture_files hash files (some (capture_files_asSet hash files)) store
          = ([], store)) := by
  refine ⟨?_, ?_, ?_⟩
  · intro hash files excluded store t ht
    exact (capture_fold_count_of_mem hash excluded t files ([], store) ht).2
  · intro hash f1 f2 ex store h1 h2 hc he hex hs
    have hnotc : ¬ store.contains (hash f1.content ++ fileExt f1) = true := by
      intro h
      exact hs (List.mem_of_elem_eq_true h)
    have ht2 : hash f2.content ++ fileExt f2 = hash f1.content ++ fileExt f1 := by
      rw [← hc, ← he]
    have hex2 : ¬ ex.contains (hash f2.content) = true := by
      rw [← hc]
      simpa using hex
    have hstep1 : capture_step hash (some ex) ([], store) f1
        = ([(f1.name, hash f1.content ++ fileExt f1)],
            store ++ [hash f1.content ++ fileExt f1]) := by
      simp only [capture_step]
      rw [if_neg (by simp [h1]), if_neg (by simpa using hex), if_neg hnotc]
      rfl
    have hcont : (store ++ [hash f1.content ++ fileExt f1]).contains
        (hash f2.content ++ fileExt f2) = true := by
      rw [ht2]
      exact List.elem_eq_true_of_mem
        (List.mem_append_right _ (List.mem_singleton.mpr rfl))
    have hstep2 : capture_step hash (some ex)
        ([(f1.name, hash f1.content ++ fileExt f1)],
          store ++ [hash f1.content ++ fileExt f1]) f2
        = ([(f1.name, hash f1.content ++ fileExt f1),
            (f2.name, hash f2.content ++ fileExt f2)],
            store ++ [hash f1.content ++ fileExt f1]) := by
      simp only [capture_step]
      rw [if_neg (by simp [h2]), if_neg hex2, if_pos hcont]
      rfl
    have hstore : (capture_files hash [f1, f2] (some ex) store).2
        = store ++ [hash f1.content ++ fileExt f1] := by
      unfold capture_files
      rw [List.foldl_cons, hstep1, List.foldl_cons, hstep2, List.foldl_nil]
    constructor
    · exact hstore
    · rw [hstore, List.count_append]
      have h0 : store.count (hash f1.content ++ fileExt f1) = 0 :=
        List.count_eq_zero.mpr hs
      simp [h0, List.count_cons]
  · intro hash files store
    apply capture_fold_all_excluded
    intro f hf hfile
    have : hash f.content ∈ capture_files_asSet hash files := by
      unfold capture_files_asSet
      exact List.mem_map_of_mem _ (List.mem_filter.mpr ⟨hf, hfile⟩)
    exact List.elem_eq_true_of_mem this

/-- C5 witness: a pre-existing object keeps multiplicity one, same content
under the same suffix is stored once, and a baseline-excluded directory
captures nothing. -/
theorem capture_files_dedup_spec_witness :
    (capture_files (fun _ => "d0") [⟨"a.bin", true, "x".data⟩] none ["d0.bin"]).2.count "d0.bin"
        = (["d0.bin"] : List String).count "d0.bin"
    ∧ ((capture_files (fun _ => "d0") [⟨"a.pdf", true, "x".data⟩, ⟨"b.pdf", true, "x".data⟩]
          (some []) []).2 = [] ++ ["d0" ++ ".pdf"]
        ∧ (capture_files (fun _ => "d0") [⟨"a.pdf", true, "x".data⟩, ⟨"b.pdf", true, "x".data⟩]
          (some []) []).2.count ("d0" ++ ".pdf") = 1)
    ∧ capture_files (fun _ => "d0") [⟨"a.pdf", true, "x".data⟩]
        (some (capture_files_asSet (fun _ => "d0") [⟨"a.pdf", true, "x".data⟩])) []
      = ([], []) :=
  ⟨capture_files_dedup_spec.1 (fun _ => "d0") [⟨"a.bin", true, "x".data⟩] none ["d0.bin"]
      "d0.bin" (by decide),
   capture_files_dedup_spec.2.1 (fun _ => "d0") ⟨"a.pdf", true, "x".data⟩
      ⟨"b.pdf", true, "x".data⟩ [] [] rfl rfl rfl rfl (by decide) (by decide),
   capture_files_dedup_spec.2.2 (fun _ => "d0") [⟨"a.pdf", true, "x".data⟩] []⟩

/-! ## Claim C6: minimal tag set -/

/-- `sortStrings` sorts. -/
theorem sortStrings_sorted (l : List String) :
    List.Sorted (fun a b : String => a ≤ b) (sortStrings l) :=
  List.sorted_insertionSort _ l

/-- `sortStrings` preserves membership. -/
theorem mem_sortStrings (a : String) (l : List String) :
    a ∈ sortStrings l ↔ a ∈ l :=
  (List.perm_insertionSort _ l).mem_iff

/-- Membership in a fold that appends a list per element. -/
theorem mem_foldl_append {α β : Type} (f : β → List α) (a : α) :
    ∀ (l : List β) (init : List α),
      (a ∈ l.foldl (fun acc b => acc ++ f b) init ↔ a ∈ init ∨ ∃ b ∈ l, a ∈ f b) := by
  intro l
  induction l with
  | nil => intro init; simp
  | cons x xs ih =>
    intro init
    rw [List.foldl_cons, ih]
    simp [List.mem_append, or_assoc]

/-- Dictionary lookup by key on an association list with distinct keys. -/
theorem find_key :
    ∀ (table : List (String × String)), (table.map Prod.fst).Nodup →
      ∀ (k v : String), (k, v) ∈ table →
        table.find? (fun kv => kv.1 == k) = some (k, v) := by
  intro table
  induction table with
  | nil => intro _ k v hmem; cases hmem
  | cons a rest ih =>
    intro hnd k v hmem
    have hnd2 : (a.1 :: rest.map Prod.fst).Nodup := by simpa using hnd
    rcases List.nodup_cons.mp hnd2 with ⟨hnotin, hndr⟩
    rcases List.mem_cons.mp hmem with h | h
    · have hpa : (fun kv : String × String => kv.1 == k) a = true := by
        rw [← h]; simp
      rw [List.find?_cons_of_pos rest hpa, ← h]
    · have hka : ¬ (fun kv : String × String => kv.1 == k) a = true := by
        simp only [beq_iff_eq]
        intro he
        apply hnotin
        rw [he]
        exact List.mem_map_of_mem Prod.fst h
      rw [List.find?_cons_of_neg rest hka]
      exact ih hndr k v h

/-- With distinct keys, a key determines its signature. -/
theorem key_val_unique (table : List (String × String))
    (hnd : (table.map Prod.fst).Nodup) (k v v' : String)
    (h1 : (k, v) ∈ table) (h2 : (k, v') ∈ table) : v = v' := by
  have e1 := find_key table hnd k v h1
  have e2 := find_key table hnd k v' h2
  rw [e1] at e2
  simpa using e2

/-- Membership in the matched-key list. -/
theorem mem_matched (table : List (String × String)) (data t : String) :
    t ∈ (table.filter (fun kv => substrOf kv.2 data)).map Prod.fst ↔
      ∃ v, (t, v) ∈ table ∧ substrOf v data = true := by
  simp only [List.mem_map, List.mem_filter]
  constructor
  · rintro ⟨⟨x1, x2⟩, ⟨hmem, hsub⟩, rfl⟩
    exact ⟨x2, hmem, hsub⟩
  · rintro ⟨v, hmem, hsub⟩
    exact ⟨(t, v), ⟨hmem, hsub⟩, rfl⟩

/-- Membership in one implied-tags entry. -/
theorem mem_impliedOf (table : List (String × String))
    (hnd : (table.map Prod.fst).Nodup) (k vk t : String)
    (hkv : (k, vk) ∈ table) :
    t ∈ impliedOf table k ↔
      ∃ vt, (t, vt) ∈ table ∧ substrOf vt vk = true ∧ t ≠ k := by
  unfold impliedOf
  rw [find_key table hnd k vk hkv]
  simp only [List.mem_map, List.mem_filter, Bool.and_eq_true, bne_iff_ne]
  constructor
  · rintro ⟨⟨x1, x2⟩, ⟨hmem, hsub, hne⟩, rfl⟩
    exact ⟨x2, hmem, hsub, hne⟩
  · rintro ⟨vt, hmem, hsub, hne⟩
    exact ⟨(t, vt), ⟨hmem, hsub, hne⟩, rfl⟩

/-- Membership characterisation of `get_tags_table` over any signature
table with distinct keys. -/
theorem get_tags_table_mem (table : List (String × String))
    (hnd : (table.map Prod.fst).Nodup) (data t : String) :
    t ∈ get_tags_table table (some data) ↔
      ∃ v, (t, v) ∈ table ∧ substrOf v data = true ∧
        ¬ ∃ x vx, (x, vx) ∈ table ∧ substrOf vx data = true
            ∧ substrOf v vx = true ∧ x ≠ t := by
  simp only [get_tags_table]
  rw [mem_sortStrings, List.mem_filter]
  constructor
  · rintro ⟨hres, hcon⟩
    rcases (mem_matched table data t).mp hres with ⟨v, hv, hvsub⟩
    refine ⟨v, hv, hvsub, ?_⟩
    rintro ⟨x, vx, hx, hxsub, hvvx, hxt⟩
    have hxres : x ∈ (table.filter (fun kv => substrOf kv.2 data)).map Prod.fst :=
      (mem_matched table data x).mpr ⟨vx, hx, hxsub⟩
    have htimp : t ∈ impliedOf table x :=
      (mem_impliedOf table hnd x vx t hx).mpr ⟨v, hv, hvvx, Ne.symm hxt⟩
    have hred : t ∈ ((table.filter (fun kv => substrOf kv.2 data)).map Prod.fst).foldl
        (fun acc k => acc ++ impliedOf table k) [] :=
      (mem_foldl_append (impliedOf table) t _ []).mpr (Or.inr ⟨x, hxres, htimp⟩)
    rw [Bool.not_eq_true'] at hcon
    have hct : (((table.filter (fun kv => substrOf kv.2 data)).map Prod.fst).foldl
        (fun acc k => acc ++ impliedOf table k) []).contains t = true :=
      List.elem_eq_true_of_mem hred
    rw [hct] at hcon
    exact Bool.noConfusion hcon
  · rintro ⟨v, hv, hvsub, hnimp⟩
    refine ⟨(mem_matched table data t).mpr ⟨v, hv, hvsub⟩, ?_⟩
    rw [Bool.not_eq_true']
    cases hc : ((table.filter (fun kv => substrOf kv.2 data)).map Prod.fst).foldl
        (fun acc k => acc ++ impliedOf table k) [] |>.contains t
    · rfl
    · exfalso
      have hmem : t ∈ ((table.filter (fun kv => substrOf kv.2 data)).map Prod.fst).foldl
          (fun acc k => acc ++ impliedOf table k) [] := List.mem_of_elem_eq_true hc
      rcases (mem_foldl_append (impliedOf table) t _ []).mp hmem with h0 | ⟨k, hkres, htimp⟩
      · cases h0
      · rcases (mem_matched table data k).mp hkres with ⟨vk, hkv, hksub⟩
        rcases (mem_impliedOf table hnd k vk t hkv).mp htimp with ⟨vt, hvt, hsubvtvk, htnek⟩
        have hveq : vt = v := key_val_unique table hnd t vt v hvt hv
        exact hnimp ⟨k, vk, hkv, hksub, by rw [← hveq]; exact hsubvtvk, Ne.symm htnek⟩

/-- The static signature table has distinct tag names. -/
theorem TAGS_keys_nodup : (TAGS.map Prod.fst).Nodup := by decide

/-- C6: `get_tags` returns the matched tags minus the union of the tags
implied by any matched tag, sorted by name; tag X implies tag Y exactly
when Y's signature is a substring of X's signature and X is not Y (the
`IMPLIED_TAGS` table computed from `TAGS`). -/
theorem get_tags_minimal_sorted (data : String) :
    List.Sorted (fun a b : String => a ≤ b) (get_tags (some data))
    ∧ ∀ t, (t ∈ get_tags (some data) ↔
        ∃ v, (t, v) ∈ TAGS ∧ substrOf v data = true ∧
          ¬ ∃ x vx, (x, vx) ∈ TAGS ∧ substrOf vx data = true
              ∧ substrOf v vx = true ∧ x ≠ t) := by
  constructor
  · exact sortStrings_sorted _
  · intro t
    exact get_tags_table_mem TAGS TAGS_keys_nodup data t

/-! ## Claim C7: metadata line first -/

/-- C7: the report log of one pipeline run is the metadata line followed by
the worker record lines, for any completion order of the queued samples:
the metadata line is the first line, it occurs exactly once, and every
record line comes after it. -/
theorem report_meta_first (metaLine : String) (corpus : List Sample)
    (maindocMap : List (String × String)) (recordOf : Sample → String)
    (completion : List Sample)
    (hperm : completion.Perm (ci_queue maindocMap corpus))
    (hne : ∀ s ∈ completion, recordOf s ≠ metaLine) :
    (report_ci_log metaLine (completion.map recordOf)).head? = some metaLine
    ∧ (report_ci_log metaLine (completion.map recordOf)).count metaLine = 1
    ∧ (report_ci_log metaLine (completion.map recordOf)).tail
        = completion.map recordOf := by
  refine ⟨rfl, ?_, rfl⟩
  have h0 : (completion.map recordOf).count metaLine = 0 := by
    rw [List.count_eq_zero]
    intro hm
    rcases List.mem_map.mp hm with ⟨s, hs, heq⟩
    exact hne s hs heq
  have h1 : (report_ci_log metaLine (completion.map recordOf)).count metaLine
      = (completion.map recordOf).count metaLine + 1 := List.count_cons_self _ _
  rw [h1, h0]

/-- C7 witness: a two-sample queue completed in reversed order still yields
the metadata line first and exactly once. -/
theorem report_meta_first_witness :
    (report_ci_log "meta" ([(⟨"b", 150⟩ : Sample), ⟨"a", 150⟩].map
        (fun s => s.stem))).head? = some "meta"
    ∧ (report_ci_log "meta" ([(⟨"b", 150⟩ : Sample), ⟨"a", 150⟩].map
        (fun s => s.stem))).count "meta" = 1
    ∧ (report_ci_log "meta" ([(⟨"b", 150⟩ : Sample), ⟨"a", 150⟩].map
        (fun s => s.stem))).tail
        = [(⟨"b", 150⟩ : Sample), ⟨"a", 150⟩].map (fun s => s.stem) :=
  report_meta_first "meta" [⟨"a", 150⟩, ⟨"b", 150⟩]
    [("a", "a.tex"), ("b", "b.tex")] (fun s => s.stem) [⟨"b", 150⟩, ⟨"a", 150⟩]
    (by decide) (by decide)

/-! ## Claim C8: withdrawn samples are skipped -/

/-- Any key of the accumulated entry map either was already in the
accumulator or is the stem of a corpus sample with a truthy `prepare`
result. -/
theorem prepare_dataset_keys_sub (maindocOf : Sample → Option String)
    (excluded : List String) :
    ∀ (corpus : List Sample) (init : List (String × String)) (k : String),
      k ∈ (corpus.foldl (prepare_step maindocOf excluded) init).map Prod.fst →
      k ∈ init.map Prod.fst
      ∨ ∃ s ∈ corpus, s.stem = k
          ∧ ∃ r, prepare maindocOf excluded s = some r ∧ r ≠ "" := by
  intro corpus
  induction corpus with
  | nil => intro init k h; exact Or.inl h
  | cons s ss ih =>
    intro init k h
    rw [List.foldl_cons] at h
    rcases ih _ k h with h0 | ⟨s2, hs2, hstem, r, hr, hrne⟩
    · cases hp : prepare maindocOf excluded s with
      | none =>
        rw [show prepare_step maindocOf excluded init s = init from by
          simp [prepare_step, hp]] at h0
        exact Or.inl h0
      | some r =>
        by_cases hre : r = ""
        · rw [show prepare_step maindocOf excluded init s = init from by
            simp [prepare_step, hp, hre]] at h0
          exact Or.inl h0
        · rw [show prepare_step maindocOf excluded init s = init ++ [(s.stem, r)] from by
            simp [prepare_step, hp, hre]] at h0
          rw [List.map_append] at h0
          rcases List.mem_append.mp h0 with h1 | h1
          · exact Or.inl h1
          · have hk : k = s.stem := by simpa using h1
            exact Or.inr ⟨s, List.mem_cons_self s ss, hk.symm, r, hp, hre⟩
    · exact Or.inr ⟨s2, List.mem_cons_of_mem s hs2, hstem, r, hr, hrne⟩

/-- C8: over a corpus with distinct stems, every sample the CI queue is
pre-loaded with clears the 100-byte withdrawal threshold and is a key of
the entry-document map produced by the preparation pass; a sample below
the threshold is absent from the map and never queued, so no record is
emitted for it. -/
theorem pipeline_skips_withdrawn (maindocOf : Sample → Option String)
    (excluded : List String) (corpus : List Sample)
    (hnd : (corpus.map Sample.stem).Nodup) :
    (∀ s ∈ ci_queue (prepare_dataset maindocOf excluded corpus) corpus,
        100 ≤ s.size
        ∧ s.stem ∈ (prepare_dataset maindocOf excluded corpus).map Prod.fst)
    ∧ ∀ s ∈ corpus, s.size < 100 →
        s.stem ∉ (prepare_dataset maindocOf excluded corpus).map Prod.fst
        ∧ s ∉ ci_queue (prepare_dataset maindocOf excluded corpus) corpus := by
  have hkey : ∀ (k : String),
      k ∈ (prepare_dataset maindocOf excluded corpus).map Prod.fst →
      ∃ s ∈ corpus, s.stem = k
        ∧ ∃ r, prepare maindocOf excluded s = some r ∧ r ≠ "" := by
    intro k hk
    rcases prepare_dataset_keys_sub maindocOf excluded corpus [] k hk with h0 | h
    · simp at h0
    · exact h
  constructor
  · intro s hs
    rcases List.mem_filter.mp hs with ⟨hmem, hcond⟩
    have hk : s.stem ∈ (prepare_dataset maindocOf excluded corpus).map Prod.fst :=
      List.mem_of_elem_eq_true hcond
    refine ⟨?_, hk⟩
    rcases hkey s.stem hk with ⟨s2, hs2, hstem, r, hr, hrne⟩
    have hss : s2 = s := List.inj_on_of_nodup_map hnd hs2 hmem hstem
    rw [hss] at hr
    by_contra hlt
    push_neg at hlt
    simp [prepare, hlt] at hr
  · intro s hmem hsize
    have hnk : s.stem ∉ (prepare_dataset maindocOf excluded corpus).map Prod.fst := by
      intro hk
      rcases hkey s.stem hk with ⟨s2, hs2, hstem, r, hr, hrne⟩
      have hss : s2 = s := List.inj_on_of_nodup_map hnd hs2 hmem hstem
      rw [hss] at hr
      simp [prepare, hsize] at hr
    refine ⟨hnk, ?_⟩
    intro hq
    rcases List.mem_filter.mp hq with ⟨_, hcond⟩
    exact hnk (List.mem_of_elem_eq_true hcond)

/-- C8 witness: a 150-byte sample is queued with its map entry, a 50-byte
sample is left out of both the map and the queue. -/
theorem pipeline_skips_withdrawn_witness :
    ((100 : Nat) ≤ (⟨"a", 150⟩ : Sample).size
      ∧ (⟨"a", 150⟩ : Sample).stem
          ∈ (prepare_dataset (fun _ => some "m.tex") []
              [⟨"a", 150⟩, ⟨"b", 50⟩]).map Prod.fst)
    ∧ ((⟨"b", 50⟩ : Sample).stem
          ∉ (prepare_dataset (fun _ => some "m.tex") []
              [⟨"a", 150⟩, ⟨"b", 50⟩]).map Prod.fst
      ∧ (⟨"b", 50⟩ : Sample)
          ∉ ci_queue (prepare_dataset (fun _ => some "m.tex") []
              [⟨"a", 150⟩, ⟨"b", 50⟩]) [⟨"a", 150⟩, ⟨"b", 50⟩]) :=
  ⟨(pipeline_skips_withdrawn (fun _ => some "m.tex") [] [⟨"a", 150⟩, ⟨"b", 50⟩]
      (by decide)).1 ⟨"a", 150⟩ (by decide),
   (pipeline_skips_withdrawn (fun _ => some "m.tex") [] [⟨"a", 150⟩, ⟨"b", 50⟩]
      (by decide)).2 ⟨"b", 50⟩ (by decide) (by decide)⟩

/-! ## Claim C9: missing log file -/

/-- C9: when the compiler log file does not exist, tag classification
returns exactly the sentinel tag list `["no-log-file"]`, for every
signature table — no signature is consulted and no log text is read. -/
theorem get_tags_no_log_file :
    (∀ table : List (String × String), get_tags_table table none = ["no-log-file"])
    ∧ get_tags none = ["no-log-file"] :=
  ⟨fun _ => rfl, rfl⟩

/-! ## Claim C10: untar exactly when the entry name differs from the stem -/

/-- C10: `do_work` builds the workspace with
`is_tar = (maindoc != sample.stem)`: when the mapped entry filename equals
the stem, the decompressed bytes stay as the single flat file named by the
stem — which then is the entry document — and when they differ, the
submission goes through tar extraction. -/
theorem do_work_untar_iff (stem maindoc root : String) (tarMembers : List String)
    (run : Except Unit Int) (elapsed : Nat) (results : List (String × String)) :
    (maindoc = stem →
      do_work stem maindoc root tarMembers run elapsed results
        = Except.ok ({ sample := stem, statuscode := run_status run,
                       seconds := elapsed, results := results }, [stem])
      ∧ maindoc ∈ [stem])
    ∧ (maindoc ≠ stem →
      do_work stem maindoc root tarMembers run elapsed results
        = (safe_extract root tarMembers).map
            (fun ws => ({ sample := stem, statuscode := run_status run,
                          seconds := elapsed, results := results }, ws))) := by
  constructor
  · intro h
    subst h
    constructor
    · simp [do_work, testEnv_init, bne_self_eq_false]
    · exact List.mem_singleton.mpr rfl
  · intro h
    have hb : (maindoc != stem) = true := bne_iff_ne.mpr h
    cases hse : safe_extract root tarMembers with
    | ok ws => simp [do_work, testEnv_init, hb, hse, Except.map]
    | error e => simp [do_work, testEnv_init, hb, hse, Except.map]

/-- C10 witness: equal names keep the flat file as the entry document, a
differing entry name goes through extraction. -/
theorem do_work_untar_iff_witness :
    (do_work "s" "s" "/t" ["x"] (Except.ok 0) 2 []
        = Except.ok ({ sample := "s", statuscode := run_status (Except.ok 0),
                       seconds := 2, results := [] }, ["s"])
      ∧ ("s" : String) ∈ ["s"])
    ∧ do_work "s" "m.tex" "/t" ["m.tex"] (Except.ok 0) 2 []
        = (safe_extract "/t" ["m.tex"]).map
            (fun ws => ({ sample := "s", statuscode := run_status (Except.ok 0),
                          seconds := 2, results := [] }, ws)) :=
  ⟨(do_work_untar_iff "s" "s" "/t" ["x"] (Except.ok 0) 2 []).1 rfl,
   (do_work_untar_iff "s" "m.tex" "/t" ["m.tex"] (Except.ok 0) 2 []).2 (by decide)⟩

end TectonicReport
